import Mathlib

/-!
Shallow embedding of the realtime feed subsystem:
the WebSocket transport (reconnect backoff, pub/sub event bus) from
`src/unnamed/part_004` (WebSocketService) and the feed reconciliation
logic from `src/frontend/src/components/CreatePost.jsx` (Feed component)
and `src/frontend/src/context/AuthContext.jsx` (Post.handleLike).

Counts are modelled as `Int` (JS numbers under ±1 arithmetic), ids as
`Nat`, handlers as opaque identifiers `Nat` with a separate behaviour
function where a claim talks about throwing handlers.
-/

/-- A post snapshot as held in the Feed component's `posts` state. -/
structure PostRec where
  id : Nat
  author_id : Nat
  likes_count : Int
  comments_count : Int
  is_liked : Bool
deriving DecidableEq

/-- Ids of a post list, in order. -/
def idsOf (l : List PostRec) : List Nat := l.map (fun p => p.id)

/-- The Feed component's state relevant to the new-post push handler:
`posts` (newest first) and `newPostsCount` (pending-new counter). -/
structure FeedState where
  posts : List PostRec
  newPostsCount : Nat
deriving DecidableEq

/-- The state update performed by `Feed.fetchPosts` on a successful
response: `setPosts((prev) => (append ? [...prev, ...newPosts] : newPosts))`. -/
def fetchPostsMerge (append : Bool) (prev newPosts : List PostRec) : List PostRec :=
  match append with
  | true => prev ++ newPosts
  | false => newPosts

/-- Sample post used by concrete witnesses. -/
def samplePost : PostRec :=
  { id := 1, author_id := 2, likes_count := 0, comments_count := 0, is_liked := false }

/-- Second sample post with a distinct id. -/
def samplePost2 : PostRec :=
  { id := 2, author_id := 3, likes_count := 4, comments_count := 1, is_liked := true }

/-- C1: the claim states that the append branch of the paginated fetch never
produces a state with a duplicate post id. The code performs a plain
concatenation with no id check, so appending a page that contains an id
already present yields that id twice. Concrete refutation: appending the
page `[samplePost]` to a state already holding `samplePost`. -/
theorem fetchPosts_append_duplicates :
    ¬ (idsOf (fetchPostsMerge true [samplePost] [samplePost])).Nodup ∧
    (idsOf (fetchPostsMerge true [samplePost] [samplePost])).count samplePost.id = 2 := by
  decide

/-- C1 (amended): the append branch concatenates the fetched page onto the
existing list with no deduplication; the result is free of duplicate ids
provided the existing state and the page are each duplicate-free and the
page brings no id that is already present. -/
theorem fetchPosts_append_nodup (prev newPosts : List PostRec)
    (h1 : (idsOf prev).Nodup) (h2 : (idsOf newPosts).Nodup)
    (h3 : ∀ i ∈ idsOf newPosts, i ∉ idsOf prev) :
    fetchPostsMerge true prev newPosts = prev ++ newPosts ∧
    (idsOf (fetchPostsMerge true prev newPosts)).Nodup := by
  refine ⟨rfl, ?_⟩
  show (idsOf (prev ++ newPosts)).Nodup
  have hmap : idsOf (prev ++ newPosts) = idsOf prev ++ idsOf newPosts := by
    simp [idsOf]
  rw [hmap]
  exact List.Nodup.append h1 h2 (fun a ha hb => h3 a hb ha)

/-- C1 amended-claim witness: appending a page with a fresh id to a
singleton state keeps the ids duplicate-free. -/
theorem fetchPosts_append_nodup_witness :
    fetchPostsMerge true [samplePost] [samplePost2] = [samplePost] ++ [samplePost2] ∧
    (idsOf (fetchPostsMerge true [samplePost] [samplePost2])).Nodup :=
  fetchPosts_append_nodup [samplePost] [samplePost2]
    (by decide) (by decide) (by decide)

/-- `shouldAdd` from the Feed new_post subscription handler:
`!userId || (userId && data.author_id === userId)`. The feed scope
`userId` is `none` for the global feed, `some uid` for a profile view. -/
def shouldAddPost (userId : Option Nat) (data : PostRec) : Bool :=
  match userId with
  | none => true
  | some uid => data.author_id == uid

/-- The Feed component's new_post subscription handler. `atTop` models
`window.scrollY < 100`. The handler discards out-of-scope posts, skips
posts whose id is already present, prepends when the viewer is at the
top, and otherwise only increments `newPostsCount`. -/
def handleNewPost (userId : Option Nat) (atTop : Bool) (data : PostRec)
    (s : FeedState) : FeedState :=
  if shouldAddPost userId data then
    if s.posts.any (fun p => p.id == data.id) then s
    else if atTop then { s with posts := data :: s.posts }
    else { s with newPostsCount := s.newPostsCount + 1 }
  else s

/-- Folding a sequence of new_post events (each with its own `atTop`
scroll observation) over a feed state. -/
def handleNewPosts (userId : Option Nat) (events : List (Bool × PostRec))
    (s : FeedState) : FeedState :=
  events.foldl (fun st e => handleNewPost userId e.1 e.2 st) s

theorem handleNewPost_nodup (userId : Option Nat) (atTop : Bool) (data : PostRec)
    (s : FeedState) (h : (idsOf s.posts).Nodup) :
    (idsOf (handleNewPost userId atTop data s).posts).Nodup := by
  by_cases h1 : shouldAddPost userId data
  · by_cases h2 : s.posts.any (fun p => p.id == data.id)
    · simpa [handleNewPost, h1, h2] using h
    · have hnot : data.id ∉ idsOf s.posts := by
        simp only [List.any_eq_true, beq_iff_eq, not_exists] at h2
        simp only [idsOf, List.mem_map, not_exists]
        intro p hmem
        exact h2 p hmem
      by_cases h3 : atTop
      · have heq : handleNewPost userId atTop data s =
            { s with posts := data :: s.posts } := by
          simp [handleNewPost, h1, h2, h3]
        rw [heq]
        show (data.id :: idsOf s.posts).Nodup
        exact List.nodup_cons.mpr ⟨hnot, h⟩
      · simpa [handleNewPost, h1, h2, h3] using h
  · simpa [handleNewPost, h1] using h

theorem handleNewPosts_nodup (userId : Option Nat) (events : List (Bool × PostRec))
    (s : FeedState) (h : (idsOf s.posts).Nodup) :
    (idsOf (handleNewPosts userId events s).posts).Nodup := by
  induction events generalizing s with
  | nil => exact h
  | cons e rest ih =>
      exact ih (handleNewPost userId e.1 e.2 s) (handleNewPost_nodup _ _ _ _ h)

/-- C2: the Feed new_post handler: (a) scoped view with a different author
leaves the state unchanged; (b) an id already present leaves the state
unchanged; (c) in scope, id fresh and viewer at the top: the post is
prepended and the pending counter is untouched; (d) in scope, id fresh,
viewer scrolled away: the post list is unchanged and the pending counter
grows by exactly one; (e) any sequence of new_post events with unique ids
keeps a duplicate-free feed duplicate-free. -/
theorem new_post_handler_spec (userId : Option Nat) (atTop : Bool)
    (data : PostRec) (s : FeedState) :
    (∀ uid, userId = some uid → data.author_id ≠ uid →
        handleNewPost userId atTop data s = s) ∧
    ((∃ p ∈ s.posts, p.id = data.id) → handleNewPost userId atTop data s = s) ∧
    (shouldAddPost userId data = true → (∀ p ∈ s.posts, p.id ≠ data.id) →
      atTop = true →
        handleNewPost userId atTop data s = { s with posts := data :: s.posts }) ∧
    (shouldAddPost userId data = true → (∀ p ∈ s.posts, p.id ≠ data.id) →
      atTop = false →
        (handleNewPost userId atTop data s).posts = s.posts ∧
        (handleNewPost userId atTop data s).newPostsCount = s.newPostsCount + 1) ∧
    (∀ events : List (Bool × PostRec), (idsOf s.posts).Nodup →
      (events.map (fun e => e.2.id)).Nodup →
      (idsOf (handleNewPosts userId events s).posts).Nodup) := by
  refine ⟨?_, ?_, ?_, ?_, ?_⟩
  · intro uid huid hne
    subst huid
    have : shouldAddPost (some uid) data = false := by
      simp [shouldAddPost, hne]
    simp [handleNewPost, this]
  · rintro ⟨p, hp, hid⟩
    have : s.posts.any (fun p => p.id == data.id) = true := by
      simp only [List.any_eq_true, beq_iff_eq]
      exact ⟨p, hp, hid⟩
    simp [handleNewPost, this]
  · intro hok hfresh htop
    have : s.posts.any (fun p => p.id == data.id) = false := by
      simp only [List.any_eq_false, beq_iff_eq]
      exact fun p hp => hfresh p hp
    simp [handleNewPost, hok, this, htop]
  · intro hok hfresh htop
    have : s.posts.any (fun p => p.id == data.id) = false := by
      simp only [List.any_eq_false, beq_iff_eq]
      exact fun p hp => hfresh p hp
    subst htop
    constructor <;> simp [handleNewPost, hok, this]
  · intro events hinit _
    exact handleNewPosts_nodup userId events s hinit

/-- C2 witness: on the global feed, with the viewer at the top and an
empty state, a new post is prepended and the pending counter stays 0. -/
theorem new_post_handler_spec_witness :
    handleNewPost none true samplePost { posts := [], newPostsCount := 0 } =
      { posts := [samplePost], newPostsCount := 0 } :=
  (new_post_handler_spec none true samplePost { posts := [], newPostsCount := 0 }).2.2.1
    (by decide) (by simp) rfl

/-- Payload of the normalized like_update bus event:
`{ ...data, isLike }` with `post_id`, the authoritative `likes_count`,
the acting user's id (`data.user?.id`, absent when the payload carries
no user), and the `isLike` flag. -/
structure LikePayload where
  post_id : Nat
  likes_count : Int
  user : Option Nat
  isLike : Bool
deriving DecidableEq

/-- The guard `user && data.user?.id === user.id` from the Feed
like_update handler: true exactly when a viewer is logged in, the
payload carries an actor id, and the two ids coincide. -/
def actorIsViewer (viewer : Option Nat) (actor : Option Nat) : Bool :=
  match viewer, actor with
  | some v, some a => a == v
  | _, _ => false

/-- The per-post body of the Feed like_update handler's `prev.map`:
on an id match, overwrite `likes_count` with the payload's value and,
only when the actor is the current viewer, also set `is_liked` from the
payload's `isLike`; otherwise return the post unchanged. -/
def applyLikeUpdate (viewer : Option Nat) (data : LikePayload) (post : PostRec) :
    PostRec :=
  if post.id == data.post_id then
    if actorIsViewer viewer data.user then
      { post with likes_count := data.likes_count, is_liked := data.isLike }
    else
      { post with likes_count := data.likes_count }
  else post

/-- The Feed like_update subscription handler: `setPosts(prev => prev.map(...))`. -/
def handleLikeUpdate (viewer : Option Nat) (data : LikePayload)
    (posts : List PostRec) : List PostRec :=
  posts.map (applyLikeUpdate viewer data)

/-- C3: the like_update handler: a post whose id matches the payload has
its `likes_count` overwritten with the payload's value and its `is_liked`
set from the payload's `isLike` exactly when the acting user is the
current viewer; a post whose id differs is returned unchanged; and when
no post matches the id the whole list is unchanged (no error raised:
the handler is a total function). -/
theorem like_update_handler_spec (viewer : Option Nat) (data : LikePayload)
    (posts : List PostRec) :
    (∀ post : PostRec, post.id = data.post_id →
        applyLikeUpdate viewer data post =
          { post with
              likes_count := data.likes_count,
              is_liked := if actorIsViewer viewer data.user then data.isLike
                          else post.is_liked }) ∧
    (∀ v a : Nat, actorIsViewer (some v) (some a) = true ↔ a = v) ∧
    (∀ post : PostRec, post.id ≠ data.post_id →
        applyLikeUpdate viewer data post = post) ∧
    ((∀ p ∈ posts, p.id ≠ data.post_id) →
        handleLikeUpdate viewer data posts = posts) := by
  refine ⟨?_, ?_, ?_, ?_⟩
  · intro post hid
    by_cases hact : actorIsViewer viewer data.user
    · simp [applyLikeUpdate, hid, hact]
    · simp [applyLikeUpdate, hid, hact]
  · intro v a
    simp [actorIsViewer]
  · intro post hid
    simp [applyLikeUpdate, hid]
  · intro hnone
    unfold handleLikeUpdate
    induction posts with
    | nil => rfl
    | cons p rest ih =>
        have hp : applyLikeUpdate viewer data p = p := by
          simp [applyLikeUpdate, hnone p (List.mem_cons_self p rest)]
        have hrest := ih (fun q hq => hnone q (List.mem_cons_of_mem p hq))
        simp only [List.map_cons, hp, hrest]

/-- C3 witness: a like_update from the viewer for a matching post
overwrites the count and sets the flag; computed at concrete input. -/
theorem like_update_handler_spec_witness :
    applyLikeUpdate (some 9) { post_id := 1, likes_count := 5, user := some 9, isLike := true }
        samplePost =
      { samplePost with
          likes_count := (5 : Int),
          is_liked := if actorIsViewer (some 9) (some 9) then true
                      else samplePost.is_liked } :=
  (like_update_handler_spec (some 9)
      { post_id := 1, likes_count := 5, user := some 9, isLike := true }
      [samplePost]).1 samplePost rfl

/-- The like-related local state of one Post component:
`isLiked` / `likesCount` (initialised from `post.is_liked` /
`post.likes_count`). -/
structure PostLikeState where
  isLiked : Bool
  likesCount : Int
deriving DecidableEq

/-- The optimistic update inside `Post.handleLike`:
`setIsLiked(!isLiked); setLikesCount(isLiked ? likesCount - 1 : likesCount + 1)`. -/
def optimisticLike (s : PostLikeState) : PostLikeState :=
  { isLiked := !s.isLiked,
    likesCount := if s.isLiked then s.likesCount - 1 else s.likesCount + 1 }

/-- `Post.handleLike`: capture the pre-toggle pair, apply the optimistic
update immediately, then await `likesAPI.toggleLike`; on failure restore
the captured pair. Returns (state visible while the request is in flight,
state after the request settles); `requestSucceeds` is the outcome of the
network call. -/
def handleLike (s : PostLikeState) (requestSucceeds : Bool) :
    PostLikeState × PostLikeState :=
  let previousIsLiked := s.isLiked
  let previousCount := s.likesCount
  let afterOptimistic := optimisticLike s
  (afterOptimistic,
   if requestSucceeds then afterOptimistic
   else { isLiked := previousIsLiked, likesCount := previousCount })

/-- C8: the optimistic like toggle flips `isLiked` and moves `likesCount`
by exactly −1 (when already liked) or +1 (when not) before the network
call resolves; on network failure both fields are restored exactly to the
pair captured at action start, i.e. the state is as if the action never
happened; on success the optimistic state is kept. -/
theorem optimistic_like_spec (s : PostLikeState) (requestSucceeds : Bool) :
    ((handleLike s requestSucceeds).1.isLiked = !s.isLiked) ∧
    ((handleLike s requestSucceeds).1.likesCount =
        s.likesCount + (if s.isLiked then (-1 : Int) else 1)) ∧
    (requestSucceeds = false → (handleLike s requestSucceeds).2 = s) ∧
    (requestSucceeds = true →
        (handleLike s requestSucceeds).2 = (handleLike s requestSucceeds).1) := by
  refine ⟨rfl, ?_, ?_, ?_⟩
  · by_cases h : s.isLiked
    · simp [handleLike, optimisticLike, h]
      ring
    · simp [handleLike, optimisticLike, h]
  · intro h
    subst h
    simp [handleLike]
  · intro h
    subst h
    simp [handleLike]

/-- C8 witness: a failing toggle on a concrete state leaves it untouched. -/
theorem optimistic_like_spec_witness :
    (handleLike { isLiked := false, likesCount := 3 } false).2 =
      { isLiked := false, likesCount := 3 } :=
  (optimistic_like_spec { isLiked := false, likesCount := 3 } false).2.2.1 rfl

/-- `maxReconnectAttempts` of WebSocketService. -/
def maxReconnectAttempts : Nat := 5

/-- `reconnectDelay` (base backoff delay, ms) of WebSocketService. -/
def reconnectDelay : Nat := 1000

/-- The fields of WebSocketService that the reconnect policy reads and
writes: `reconnectAttempts` and `isConnected`. -/
structure WSState where
  reconnectAttempts : Nat
  isConnected : Bool
deriving DecidableEq

/-- Freshly constructed WebSocketService. -/
def wsInit : WSState := { reconnectAttempts := 0, isConnected := false }

/-- Observable outcome of one `scheduleReconnect` call: the updated
service state, the delay of the timer it arms (`none` when it arms
none), and whether it emitted `max_reconnect_attempts`. -/
structure SchedResult where
  state : WSState
  delay : Option Nat
  maxEmitted : Bool
deriving DecidableEq

/-- `WebSocketService.scheduleReconnect`: when the attempt budget is
exhausted, emit `max_reconnect_attempts` and return; otherwise increment
`reconnectAttempts` and arm a timer for
`reconnectDelay * 2 ^ (reconnectAttempts - 1)` ms. -/
def scheduleReconnect (s : WSState) : SchedResult :=
  if s.reconnectAttempts ≥ maxReconnectAttempts then
    { state := s, delay := none, maxEmitted := true }
  else
    let attempts := s.reconnectAttempts + 1
    { state := { s with reconnectAttempts := attempts },
      delay := some (reconnectDelay * 2 ^ (attempts - 1)),
      maxEmitted := false }

/-- C4: the claim states the delay equals `baseDelay * 2 ^ attemptCount`
with `attemptCount` already incremented, i.e. the n-th consecutive
attempt fires after `1000 * 2 ^ n` ms. Refutation at the first attempt
from a fresh service: `attemptCount` becomes 1 but the armed delay is
1000 ms, not `1000 * 2 ^ 1 = 2000` ms. -/
theorem backoff_delay_counterexample :
    (scheduleReconnect wsInit).state.reconnectAttempts = 1 ∧
    (scheduleReconnect wsInit).delay = some 1000 ∧
    (scheduleReconnect wsInit).delay ≠
      some (reconnectDelay * 2 ^ (scheduleReconnect wsInit).state.reconnectAttempts) := by
  decide

/-- C4 (amended): below the budget, `scheduleReconnect` increments
`attemptCount` and arms a delay of `baseDelay * 2 ^ (attemptCount - 1)`
computed from the incremented counter — so the n-th consecutive attempt
is scheduled after `1000 * 2 ^ (n - 1)` ms — and emits nothing. -/
theorem backoff_delay_formula (s : WSState)
    (h : s.reconnectAttempts < maxReconnectAttempts) :
    (scheduleReconnect s).state.reconnectAttempts = s.reconnectAttempts + 1 ∧
    (scheduleReconnect s).delay = some (reconnectDelay * 2 ^ s.reconnectAttempts) ∧
    (scheduleReconnect s).maxEmitted = false := by
  unfold scheduleReconnect
  rw [if_neg (by omega)]
  exact ⟨rfl, by simp, rfl⟩

/-- C4 amended-claim witness: the first attempt from a fresh service is
armed after `1000 * 2 ^ 0 = 1000` ms. -/
theorem backoff_delay_formula_witness :
    (scheduleReconnect wsInit).state.reconnectAttempts = 0 + 1 ∧
    (scheduleReconnect wsInit).delay = some (reconnectDelay * 2 ^ 0) ∧
    (scheduleReconnect wsInit).maxEmitted = false :=
  backoff_delay_formula wsInit (by decide)

/-- Service state after n consecutive connection failures starting from a
fresh service, each failure invoking `scheduleReconnect` once. -/
def afterFailures : Nat → WSState
  | 0 => wsInit
  | n + 1 => (scheduleReconnect (afterFailures n)).state

theorem afterFailures_eq (n : Nat) :
    afterFailures n = { reconnectAttempts := min n 5, isConnected := false } := by
  induction n with
  | zero => rfl
  | succ n ih =>
      unfold afterFailures
      rw [ih]
      unfold scheduleReconnect
      by_cases h : min n 5 ≥ maxReconnectAttempts
      · rw [if_pos h]
        unfold maxReconnectAttempts at h
        have : min n 5 = 5 := by omega
        simp only [this]
        have : min (n + 1) 5 = 5 := by omega
        rw [this]
      · rw [if_neg h]
        unfold maxReconnectAttempts at h
        have h5 : min n 5 + 1 = min (n + 1) 5 := by omega
        simp only [h5]

/-- C5: along consecutive failures from a fresh service, each of the
first 5 failures arms one reconnect timer with delay `1000 * 2 ^ n` for
the (n+1)-th failure; these delays are strictly increasing; the 6th
failure (and every later one) emits `max_reconnect_attempts` and arms no
timer; and from any state whose attempt budget is exhausted,
`scheduleReconnect` never arms a timer — only an external `connect` call
lies outside this function. -/
theorem reconnect_budget_spec :
    (∀ n, n < 5 →
        (scheduleReconnect (afterFailures n)).delay =
          some (reconnectDelay * 2 ^ n) ∧
        (scheduleReconnect (afterFailures n)).maxEmitted = false) ∧
    (∀ m n dm dn, m < n → n < 5 →
        (scheduleReconnect (afterFailures m)).delay = some dm →
        (scheduleReconnect (afterFailures n)).delay = some dn → dm < dn) ∧
    ((scheduleReconnect (afterFailures 5)).delay = none ∧
        (scheduleReconnect (afterFailures 5)).maxEmitted = true) ∧
    (∀ n, 5 ≤ n →
        (scheduleReconnect (afterFailures n)).delay = none ∧
        (scheduleReconnect (afterFailures n)).maxEmitted = true) ∧
    (∀ s : WSState, maxReconnectAttempts ≤ s.reconnectAttempts →
        (scheduleReconnect s).delay = none ∧
        (scheduleReconnect s).maxEmitted = true) := by
  have hdelay : ∀ n, n < 5 →
      (scheduleReconnect (afterFailures n)).delay =
        some (reconnectDelay * 2 ^ n) ∧
      (scheduleReconnect (afterFailures n)).maxEmitted = false := by
    intro n hn
    rw [afterFailures_eq n]
    have hmin : min n 5 = n := by omega
    unfold scheduleReconnect
    rw [if_neg (by simp [hmin, maxReconnectAttempts]; omega)]
    simp [hmin]
  have hmax : ∀ s : WSState, maxReconnectAttempts ≤ s.reconnectAttempts →
      (scheduleReconnect s).delay = none ∧
      (scheduleReconnect s).maxEmitted = true := by
    intro s hs
    unfold scheduleReconnect
    rw [if_pos hs]
    exact ⟨rfl, rfl⟩
  refine ⟨hdelay, ?_, ?_, ?_, hmax⟩
  · intro m n dm dn hmn hn hdm hdn
    have hm5 : m < 5 := by omega
    have h1 := (hdelay m hm5).1
    have h2 := (hdelay n hn).1
    rw [h1] at hdm
    rw [h2] at hdn
    have hpow : 2 ^ m < 2 ^ n := Nat.pow_lt_pow_right (by omega) hmn
    have hdm2 : reconnectDelay * 2 ^ m = dm := Option.some.inj hdm
    have hdn2 : reconnectDelay * 2 ^ n = dn := Option.some.inj hdn
    unfold reconnectDelay at hdm2 hdn2
    omega
  · have := hmax (afterFailures 5) (by rw [afterFailures_eq]; decide)
    exact this
  · intro n hn
    apply hmax
    rw [afterFailures_eq n]
    show maxReconnectAttempts ≤ min n 5
    unfold maxReconnectAttempts
    omega

/-- C5 witness: the first failure from a fresh service arms a 1000 ms
timer without emitting `max_reconnect_attempts`. -/
theorem reconnect_budget_spec_witness :
    (scheduleReconnect (afterFailures 0)).delay = some (reconnectDelay * 2 ^ 0) ∧
    (scheduleReconnect (afterFailures 0)).maxEmitted = false :=
  reconnect_budget_spec.1 0 (by decide)

/-- Transport lifecycle events that touch the reconnect counter:
an explicit `connect(token)` call, the socket `onopen` callback, and the
socket `onclose` callback carrying a close code. -/
inductive WSEvent where
  | connectCall
  | onOpen
  | onClose (code : Nat)
deriving DecidableEq

/-- Observable outcome of one lifecycle event. -/
structure StepResult where
  state : WSState
  scheduledDelay : Option Nat
  emitsMax : Bool
deriving DecidableEq

/-- One step of the WebSocketService lifecycle:
`connect` replaces the socket but touches neither `reconnectAttempts`
nor `isConnected`; `onopen` sets `isConnected = true` and resets
`reconnectAttempts = 0`; `onclose` clears `isConnected` and, for any
code other than 1000 (normal closure), runs `scheduleReconnect`. -/
def wsStep (s : WSState) : WSEvent → StepResult
  | .connectCall => { state := s, scheduledDelay := none, emitsMax := false }
  | .onOpen =>
      { state := { reconnectAttempts := 0, isConnected := true },
        scheduledDelay := none, emitsMax := false }
  | .onClose code =>
      let s1 : WSState := { s with isConnected := false }
      if code = 1000 then
        { state := s1, scheduledDelay := none, emitsMax := false }
      else
        let r := scheduleReconnect s1
        { state := r.state, scheduledDelay := r.delay, emitsMax := r.maxEmitted }

/-- C9: `reconnectAttempts` is reset to 0 only by a successful open:
`connect` leaves the whole state unchanged, `scheduleReconnect` never
decreases the counter, any event that decreases it is `onOpen`, `onOpen`
zeroes it; and once the budget is exhausted, an abnormal close after an
explicit `connect` emits `max_reconnect_attempts` immediately, arms no
timer, and leaves the counter where it was. -/
theorem attempts_reset_only_on_open :
    (∀ s : WSState, (wsStep s .connectCall).state = s) ∧
    (∀ s : WSState,
        s.reconnectAttempts ≤ (scheduleReconnect s).state.reconnectAttempts) ∧
    (∀ (s : WSState) (e : WSEvent),
        (wsStep s e).state.reconnectAttempts < s.reconnectAttempts → e = .onOpen) ∧
    (∀ s : WSState, (wsStep s .onOpen).state.reconnectAttempts = 0) ∧
    (∀ (s : WSState) (c : Nat),
        maxReconnectAttempts ≤ s.reconnectAttempts → c ≠ 1000 →
        (wsStep s (.onClose c)).emitsMax = true ∧
        (wsStep s (.onClose c)).scheduledDelay = none ∧
        (wsStep s (.onClose c)).state.reconnectAttempts = s.reconnectAttempts) := by
  have hsched : ∀ s : WSState,
      s.reconnectAttempts ≤ (scheduleReconnect s).state.reconnectAttempts := by
    intro s
    unfold scheduleReconnect
    by_cases h : s.reconnectAttempts ≥ maxReconnectAttempts
    · rw [if_pos h]
    · rw [if_neg h]
      simp
  refine ⟨fun s => rfl, hsched, ?_, fun s => rfl, ?_⟩
  · intro s e hlt
    cases e with
    | connectCall => exact absurd hlt (by simp [wsStep])
    | onOpen => rfl
    | onClose code =>
        exfalso
        by_cases hc : code = 1000
        · simp [wsStep, hc] at hlt
        · have : (wsStep s (.onClose code)).state =
              (scheduleReconnect { s with isConnected := false }).state := by
            simp [wsStep, hc]
          rw [this] at hlt
          have := hsched { s with isConnected := false }
          simp only at this
          omega
  · intro s c hbudget hc
    have hrw : wsStep s (.onClose c) =
        { state := (scheduleReconnect { s with isConnected := false }).state,
          scheduledDelay := (scheduleReconnect { s with isConnected := false }).delay,
          emitsMax := (scheduleReconnect { s with isConnected := false }).maxEmitted } := by
      simp [wsStep, hc]
    have hexh : (scheduleReconnect { s with isConnected := false }) =
        { state := { s with isConnected := false }, delay := none, maxEmitted := true } := by
      unfold scheduleReconnect
      rw [if_pos hbudget]
    rw [hrw, hexh]
    exact ⟨rfl, rfl, rfl⟩

/-- C9 witness: with the budget already exhausted, an abnormal close
(code 1006) right after an explicit `connect` re-emits
`max_reconnect_attempts`, arms no timer, and keeps the counter at 5. -/
theorem attempts_reset_only_on_open_witness :
    (wsStep { reconnectAttempts := 5, isConnected := false } (.onClose 1006)).emitsMax = true ∧
    (wsStep { reconnectAttempts := 5, isConnected := false } (.onClose 1006)).scheduledDelay = none ∧
    (wsStep { reconnectAttempts := 5, isConnected := false } (.onClose 1006)).state.reconnectAttempts =
      WSState.reconnectAttempts { reconnectAttempts := 5, isConnected := false } :=
  attempts_reset_only_on_open.2.2.2.2
    { reconnectAttempts := 5, isConnected := false } 1006 (by decide) (by decide)

/-- A registered callback, identified by reference identity. -/
abbrev Handler := Nat

/-- The `listeners` map of WebSocketService: event-type string to the
ordered set of callbacks registered under it (a JS `Set` iterates in
insertion order and holds each callback at most once). -/
abbrev BusT := String → List Handler

/-- `new Map()`: no listeners for any event type. -/
def emptyBus : BusT := fun _ => []

/-- JS `Set.add`: append the callback if absent, keep the set unchanged
(and its order) if already present. -/
def addUnique (l : List Handler) (h : Handler) : List Handler :=
  if h ∈ l then l else l ++ [h]

/-- `WebSocketService.subscribe(event, callback)`: ensure the event's
set exists and add the callback to it. -/
def subscribeB (bus : BusT) (ev : String) (h : Handler) : BusT :=
  fun e => if e = ev then addUnique (bus ev) h else bus e

/-- `WebSocketService.unsubscribe(event, callback)`: delete the callback
from the event's set if the set exists (deleting from an absent or
non-containing set is a no-op, as for JS `Set.delete`). -/
def unsubscribeB (bus : BusT) (ev : String) (h : Handler) : BusT :=
  fun e => if e = ev then (bus ev).erase h else bus e

/-- `WebSocketService.emit`: walk the event's callbacks in order; each
call sits in a `try/catch` whose catch only logs, so a throwing callback
never stops the walk. `throws` gives each callback's behaviour; the
result is (callbacks invoked in order, errors caught and logged in order). -/
def emitRun (handlers : List Handler) (throws : Handler → Bool) :
    List Handler × List Handler :=
  match handlers with
  | [] => ([], [])
  | h :: rest =>
      let r := emitRun rest throws
      (h :: r.1, if throws h then h :: r.2 else r.2)

/-- Registering a list of callbacks one after the other. -/
def subscribeAll (bus : BusT) (ev : String) (hs : List Handler) : BusT :=
  hs.foldl (fun b h => subscribeB b ev h) bus

theorem emitRun_invoked (hs : List Handler) (throws : Handler → Bool) :
    (emitRun hs throws).1 = hs := by
  induction hs with
  | nil => rfl
  | cons h rest ih => simp [emitRun, ih]

theorem emitRun_logged (hs : List Handler) (throws : Handler → Bool) :
    (emitRun hs throws).2 = hs.filter throws := by
  induction hs with
  | nil => rfl
  | cons h rest ih =>
      by_cases hth : throws h
      · simp [emitRun, ih, List.filter_cons, hth]
      · simp [emitRun, ih, List.filter_cons, hth]

theorem subscribeB_self (bus : BusT) (ev : String) (h : Handler) :
    subscribeB bus ev h ev = addUnique (bus ev) h := by
  simp [subscribeB]

theorem subscribeAll_fresh (hs : List Handler) (bus : BusT) (ev : String)
    (hnd : hs.Nodup) (hfresh : ∀ h ∈ hs, h ∉ bus ev) :
    subscribeAll bus ev hs ev = bus ev ++ hs := by
  induction hs generalizing bus with
  | nil => simp [subscribeAll]
  | cons h rest ih =>
      have hstep : subscribeB bus ev h ev = bus ev ++ [h] := by
        rw [subscribeB_self]
        unfold addUnique
        rw [if_neg (hfresh h (List.mem_cons_self h rest))]
      have hnd2 : rest.Nodup := (List.nodup_cons.mp hnd).2
      have hne : h ∉ rest := (List.nodup_cons.mp hnd).1
      have hfresh2 : ∀ g ∈ rest, g ∉ subscribeB bus ev h ev := by
        intro g hg
        rw [hstep]
        simp only [List.mem_append, List.mem_singleton, not_or]
        refine ⟨hfresh g (List.mem_cons_of_mem h hg), ?_⟩
        intro hgh
        exact hne (hgh ▸ hg)
      have : subscribeAll bus ev (h :: rest) =
          subscribeAll (subscribeB bus ev h) ev rest := rfl
      rw [this, ih (subscribeB bus ev h) hnd2 hfresh2, hstep,
        List.append_assoc]
      rfl

/-- C6: `emit` invokes every currently-registered handler of the event
type, in registration order (a run of fresh subscriptions registers in
list order, and `emitRun` walks exactly that list front to back), and a
throwing handler is caught and logged without preventing any remaining
handler of the same emission: the invoked list never depends on which
handlers throw. -/
theorem emit_invokes_all_in_order :
    (∀ (hs : List Handler) (throws : Handler → Bool),
        (emitRun hs throws).1 = hs) ∧
    (∀ (hs : List Handler) (throws : Handler → Bool),
        (emitRun hs throws).2 = hs.filter throws) ∧
    (∀ (ev : String) (hs : List Handler), hs.Nodup →
        subscribeAll emptyBus ev hs ev = hs) := by
  refine ⟨emitRun_invoked, emitRun_logged, ?_⟩
  intro ev hs hnd
  have := subscribeAll_fresh hs emptyBus ev hnd (by intro h _; simp [emptyBus])
  simpa [emptyBus] using this

/-- C6 witness: two fresh subscriptions to one event type register in
order, and an emission during which the first handler throws still
invokes both, logging exactly the throwing one. -/
theorem emit_invokes_all_in_order_witness :
    subscribeAll emptyBus "new_post" [1, 2] "new_post" = [1, 2] ∧
    (emitRun [1, 2] (fun h => h == 1)).1 = [1, 2] ∧
    (emitRun [1, 2] (fun h => h == 1)).2 = [1, 2].filter (fun h => h == 1) :=
  ⟨emit_invokes_all_in_order.2.2 "new_post" [1, 2] (by decide),
   emit_invokes_all_in_order.1 [1, 2] (fun h => h == 1),
   emit_invokes_all_in_order.2.1 [1, 2] (fun h => h == 1)⟩

theorem addUnique_mem_self (l : List Handler) (h : Handler) : h ∈ addUnique l h := by
  unfold addUnique
  by_cases hm : h ∈ l
  · rwa [if_pos hm]
  · rw [if_neg hm]
    simp

theorem addUnique_of_mem (l : List Handler) (h : Handler) (hm : h ∈ l) :
    addUnique l h = l := by
  unfold addUnique
  rw [if_pos hm]

theorem addUnique_nodup (l : List Handler) (h : Handler) (hl : l.Nodup) :
    (addUnique l h).Nodup := by
  unfold addUnique
  by_cases hm : h ∈ l
  · rwa [if_pos hm]
  · rw [if_neg hm]
    simpa [List.nodup_append] using ⟨hl, hm⟩

theorem addUnique_count (l : List Handler) (h : Handler) (hl : l.Nodup) :
    (addUnique l h).count h = 1 := by
  unfold addUnique
  by_cases hm : h ∈ l
  · rw [if_pos hm]
    exact List.count_eq_one_of_mem hl hm
  · rw [if_neg hm]
    rw [List.count_append, List.count_eq_zero_of_not_mem hm]
    simp

theorem unsubscribeB_self (bus : BusT) (ev : String) (h : Handler) :
    unsubscribeB bus ev h ev = (bus ev).erase h := by
  simp [unsubscribeB]

/-- C7: the unsubscribe capability returned by `subscribe(event, callback)`
(a closure invoking `unsubscribe(event, callback)`): it removes exactly
that callback — any other callback of the same event type stays
registered exactly as before — the removed callback is absent from every
emission performed on the resulting bus, including one performed
immediately afterwards, and invoking the capability a second time leaves
the bus exactly as after the first invocation. -/
theorem unsubscribe_capability_spec :
    (∀ (bus : BusT) (ev : String) (g h : Handler), g ≠ h →
        (g ∈ unsubscribeB bus ev h ev ↔ g ∈ bus ev)) ∧
    (∀ (bus : BusT) (ev : String) (h : Handler), (bus ev).Nodup →
        h ∉ unsubscribeB bus ev h ev) ∧
    (∀ (bus : BusT) (ev : String) (h : Handler) (throws : Handler → Bool),
        (bus ev).Nodup →
        h ∉ (emitRun (unsubscribeB bus ev h ev) throws).1) ∧
    (∀ (bus : BusT) (ev : String) (h : Handler), (bus ev).Nodup →
        unsubscribeB (unsubscribeB bus ev h) ev h = unsubscribeB bus ev h) := by
  have hgone : ∀ (bus : BusT) (ev : String) (h : Handler), (bus ev).Nodup →
      h ∉ unsubscribeB bus ev h ev := by
    intro bus ev h hnd
    rw [unsubscribeB_self]
    intro hmem
    exact absurd rfl ((hnd.mem_erase_iff.mp hmem).1)
  refine ⟨?_, hgone, ?_, ?_⟩
  · intro bus ev g h hne
    rw [unsubscribeB_self]
    exact List.mem_erase_of_ne hne
  · intro bus ev h throws hnd
    rw [emitRun_invoked]
    exact hgone bus ev h hnd
  · intro bus ev h hnd
    funext e
    by_cases he : e = ev
    · subst he
      have h1 : unsubscribeB (unsubscribeB bus e h) e h e =
          ((bus e).erase h).erase h := by
        rw [unsubscribeB_self, unsubscribeB_self]
      rw [h1, unsubscribeB_self]
      apply List.erase_of_not_mem
      intro hmem
      exact absurd rfl ((hnd.mem_erase_iff.mp hmem).1)
    · simp [unsubscribeB, he]

/-- C7 witness: unsubscribing handler 7 from a bus holding handlers 3 and
7 under one event type removes it, so an emission immediately afterwards
never reaches it. -/
theorem unsubscribe_capability_spec_witness :
    7 ∉ (emitRun (unsubscribeB (fun _ => [3, 7]) "like_update" 7 "like_update")
          (fun _ => false)).1 :=
  unsubscribe_capability_spec.2.2.1 (fun _ => [3, 7]) "like_update" 7
    (fun _ => false) (by decide)

/-- C10: `subscribe` is idempotent per (event type, callback) pair: the JS
`Set` ignores a second `add` of the same callback, so double-subscribing
equals subscribing once; after subscribing (once or twice) the callback
sits in the listener set exactly once, hence one emission invokes it
exactly once; and a single unsubscribe after a double subscribe removes
it completely. -/
theorem subscribe_idempotent_spec :
    (∀ (bus : BusT) (ev : String) (h : Handler),
        subscribeB (subscribeB bus ev h) ev h = subscribeB bus ev h) ∧
    (∀ (bus : BusT) (ev : String) (h : Handler), (bus ev).Nodup →
        (subscribeB bus ev h ev).count h = 1) ∧
    (∀ (bus : BusT) (ev : String) (h : Handler) (throws : Handler → Bool),
        (bus ev).Nodup →
        ((emitRun (subscribeB bus ev h ev) throws).1).count h = 1) ∧
    (∀ (bus : BusT) (ev : String) (h : Handler), (bus ev).Nodup →
        h ∉ unsubscribeB (subscribeB (subscribeB bus ev h) ev h) ev h ev) := by
  have hdouble : ∀ (bus : BusT) (ev : String) (h : Handler),
      subscribeB (subscribeB bus ev h) ev h = subscribeB bus ev h := by
    intro bus ev h
    funext e
    by_cases he : e = ev
    · subst he
      have h1 : subscribeB (subscribeB bus e h) e h e =
          addUnique (subscribeB bus e h e) h := subscribeB_self _ _ _
      rw [h1, subscribeB_self]
      exact addUnique_of_mem _ h (addUnique_mem_self (bus e) h)
    · simp [subscribeB, he]
  have hcount : ∀ (bus : BusT) (ev : String) (h : Handler), (bus ev).Nodup →
      (subscribeB bus ev h ev).count h = 1 := by
    intro bus ev h hnd
    rw [subscribeB_self]
    exact addUnique_count (bus ev) h hnd
  refine ⟨hdouble, hcount, ?_, ?_⟩
  · intro bus ev h throws hnd
    rw [emitRun_invoked]
    exact hcount bus ev h hnd
  · intro bus ev h hnd
    rw [hdouble]
    rw [unsubscribeB_self, subscribeB_self]
    have hnd2 : (addUnique (bus ev) h).Nodup := addUnique_nodup (bus ev) h hnd
    intro hmem
    exact absurd rfl ((hnd2.mem_erase_iff.mp hmem).1)

/-- C10 witness: subscribing handler 5 twice to an empty bus registers it
once, and an emission right after invokes it exactly once. -/
theorem subscribe_idempotent_spec_witness :
    (subscribeB emptyBus "new_comment" 5 "new_comment").count 5 = 1 :=
  subscribe_idempotent_spec.2.1 emptyBus "new_comment" 5 (by decide)
